import Mathlib

/-!
Verification of the text-editing core of the `use_editable` hook
(`hooks/src/use_editable.rs`).

The buffer is a ropey `Rope`; we embed it as a `List Char`. Line indexing
follows ropey's semantics: a line includes its terminating newline, the
line count is one more than the number of newline characters, and
`char_to_line` / `line_to_char` / `line` fail (`Option.none`, standing for
a Rust panic) outside their documented domains.

Pixel coordinates are only carried around by the session, never computed
with, so they are embedded abstractly as pairs of naturals.
-/

/-- Element-local pointer coordinates; the session only stores and forwards
them, so the numeric type is irrelevant to every claim. -/
abbrev Point := Nat × Nat

/-- Number of lines of a buffer: one more than the number of newline
terminators (ropey `len_lines`). -/
def lineCount (s : List Char) : Nat :=
  1 + s.count '\n'

/-- Index of the line containing char offset `o`: the number of newlines
strictly before `o` (ropey `char_to_line`, total version on valid input). -/
def charToLine (s : List Char) (o : Nat) : Nat :=
  (s.take o).count '\n'

/-- ropey `char_to_line`: panics (here `none`) when the offset exceeds the
buffer length. -/
def charToLineChecked (s : List Char) (o : Nat) : Option Nat :=
  if o ≤ s.length then some (charToLine s o) else none

/-- Char offset of the start of line `r` (ropey `line_to_char`, total
version on valid input): the position just after the `r`-th newline. -/
def lineStart : List Char → Nat → Nat
  | _, 0 => 0
  | [], _ + 1 => 0
  | c :: cs, r + 1 => if c = '\n' then 1 + lineStart cs r else 1 + lineStart cs (r + 1)

/-- ropey `line_to_char`: defined for `r ≤ line count` (one-past-the-end is
allowed), panics (here `none`) above. -/
def lineToCharChecked (s : List Char) (r : Nat) : Option Nat :=
  if r ≤ lineCount s then some (lineStart s r) else none

/-- Text of line `r`, including its terminating newline when present
(total version on valid input, following ropey's `line`). -/
def lineAt : List Char → Nat → List Char
  | [], _ => []
  | c :: cs, 0 => if c = '\n' then ['\n'] else c :: lineAt cs 0
  | c :: cs, r + 1 => if c = '\n' then lineAt cs r else lineAt cs (r + 1)

/-- `RopeEditor::line` (via ropey `get_line`): `none` when the index is
out of bounds, i.e. `r ≥ line count`. -/
def lineChecked (s : List Char) (r : Nat) : Option (List Char) :=
  if r < lineCount s then some (lineAt s r) else none

/-- Modelled from the spec: `Line::len_chars`, the char length of a line,
is missing from the sources. Per §3/§4.2 a cursor column is clamped to the
line's length and then "sits at end-of-line, never mid-terminator or past
it", so the length counts the line's chars without its newline
terminator. -/
def lineLen : List Char → Nat
  | [] => 0
  | c :: cs => (if c = '\n' then 0 else 1) + lineLen cs

/-- Cursor of a text editor: a row plus a column. -/
structure Cursor where
  row : Nat
  col : Nat
deriving DecidableEq, Repr

/-- `Cursor::as_tuple`, in the `(col, row)` order the response listener
compares against. -/
def Cursor.asTuple (c : Cursor) : Nat × Nat :=
  (c.col, c.row)

/-- Modelled from the spec: the `RopeEditor` type itself is missing from
the sources. Per §3 it composes the rope buffer, the cursor and the
highlight set, the latter a mapping from editor-instance id to an optional
(start, end) range, embedded as an association list. -/
structure RopeEditor where
  rope : List Char
  cursor : Cursor
  highlights : List (Nat × Nat × Nat)
deriving DecidableEq, Repr

/-- Modelled from the spec: `TextEditor::highlight_text` is missing from
the sources. Per §4.2 it sets or replaces the highlight range for the
given editor id. -/
def highlight_text (ed : RopeEditor) (f t id : Nat) : RopeEditor :=
  { ed with highlights := (id, f, t) :: ed.highlights.filter (fun h => h.1 != id) }

/-- Modelled from the spec: `TextEditor::unhighlight` is missing from the
sources. Per §4.2 it clears all highlight ranges. -/
def unhighlight (ed : RopeEditor) : RopeEditor :=
  { ed with highlights := [] }

/-- `EditableMode` (`use_editable.rs`). -/
inductive EditableMode where
  | SingleLineMultipleEditors
  | MultipleLinesSingleEditor
deriving DecidableEq, Repr

/-- `CursorLayoutResponse`: the two layout-resolution responses. -/
inductive CursorLayoutResponse where
  | CursorPosition (position : Nat) (id : Nat)
  | TextSelection (fromOffset : Nat) (toOffset : Nat) (id : Nat)
deriving DecidableEq, Repr

/-- The request slots of the `CursorReference` shared with the layout
engine (`use_editable.rs`, lines 100-105); the response channel endpoint
`agent` carries no state and is omitted. -/
structure CursorReference where
  cursor_position : Option Point
  id : Option Nat
  cursor_selections : Option (Point × Point)
deriving DecidableEq, Repr

/-- The `(col, row)` pair the `CursorPosition` arm of the response
listener computes (`use_editable.rs`, lines 191-215): the mode dispatch
for row and column followed by the end-of-line clamp. `none` stands for a
panic (ropey bounds panic or the `line(...).unwrap()`). -/
def resolvedCursor (mode : EditableMode) (ed : RopeEditor) (position id : Nat) :
    Option (Nat × Nat) :=
  let newCursorRow? : Option Nat :=
    match mode with
    | .MultipleLinesSingleEditor => charToLineChecked ed.rope position
    | .SingleLineMultipleEditors => some id
  match newCursorRow? with
  | none => none
  | some newCursorRow =>
    let newCursorCol? : Option Nat :=
      match mode with
      | .MultipleLinesSingleEditor =>
          (lineToCharChecked ed.rope newCursorRow).map (fun lc => position - lc)
      | .SingleLineMultipleEditors => some position
    match newCursorCol? with
    | none => none
    | some newCursorCol =>
      match lineChecked ed.rope newCursorRow with
      | none => none
      | some newCurrentLine =>
        some (if lineLen newCurrentLine ≤ newCursorCol then
                (lineLen newCurrentLine, newCursorRow)
              else
                (newCursorCol, newCursorRow))

/-- The `CursorPosition` arm of the response listener
(`use_editable.rs`, lines 191-225): resolve the clamped cursor, then
update the editor only when it actually differs, in which case the column
and row are set and the editor unhighlighted. -/
def processCursorPosition (mode : EditableMode) (ed : RopeEditor) (position id : Nat) :
    Option RopeEditor :=
  match resolvedCursor mode ed position id with
  | none => none
  | some newCursor =>
    if ed.cursor.asTuple ≠ newCursor then
      some (unhighlight { ed with cursor := { row := newCursor.2, col := newCursor.1 } })
    else
      some ed

/-- One iteration of the layout-response listener
(`use_editable.rs`, lines 188-236): dispatch on the message, then reset
the `cursor_position` and `cursor_selections` request slots. The `id`
slot is not touched there. -/
def processLayoutResponse (mode : EditableMode) (cref : CursorReference)
    (ed : RopeEditor) (msg : CursorLayoutResponse) :
    Option (CursorReference × RopeEditor) :=
  let ed? : Option RopeEditor :=
    match msg with
    | .CursorPosition position id => processCursorPosition mode ed position id
    | .TextSelection f t id => some (highlight_text ed f t id)
  match ed? with
  | none => none
  | some ed' =>
    some ({ cref with cursor_position := none, cursor_selections := none }, ed')

/-- `EditableEvent`: the pointer events of the click stream. -/
inductive EditableEvent where
  | Click
  | MouseOver (coords : Point) (id : Nat)
  | MouseDown (coords : Point) (id : Nat)
deriving DecidableEq, Repr

/-- One iteration of the pointer-event listener
(`use_editable.rs`, lines 137-174). State threaded through:
the drag flag `current_dragging`, the cursor reference and the editor.
`hasProxy` records whether an event-loop proxy was found in context; the
returned `Bool` tells whether a `RequestRelayout` event was sent, which
happens exactly when a drag is still in progress afterwards and the proxy
exists. -/
def processPointerEvent (hasProxy : Bool) (dragging : Option Point)
    (cref : CursorReference) (ed : RopeEditor) (ev : EditableEvent) :
    Option Point × CursorReference × RopeEditor × Bool :=
  let next : Option Point × CursorReference × RopeEditor :=
    match ev with
    | .MouseDown coords id =>
        (some coords,
         { cref with id := some id, cursor_position := some coords },
         unhighlight ed)
    | .MouseOver coords id =>
        match dragging with
        | some start =>
            (some start,
             { cref with id := some id, cursor_selections := some (start, coords) },
             ed)
        | none => (none, cref, ed)
    | .Click => (none, cref, ed)
  (next.1, next.2.1, next.2.2, next.1.isSome && hasProxy)

/-! Basic equations for the line bookkeeping. -/

lemma lineStart_zero : ∀ s : List Char, lineStart s 0 = 0
  | [] => rfl
  | _ :: _ => rfl

lemma lineStart_cons (c : Char) (cs : List Char) (r : Nat) :
    lineStart (c :: cs) (r + 1) =
      if c = '\n' then 1 + lineStart cs r else 1 + lineStart cs (r + 1) := rfl

lemma lineAt_cons_zero (c : Char) (cs : List Char) :
    lineAt (c :: cs) 0 = if c = '\n' then ['\n'] else c :: lineAt cs 0 := rfl

lemma lineAt_cons_succ (c : Char) (cs : List Char) (r : Nat) :
    lineAt (c :: cs) (r + 1) = if c = '\n' then lineAt cs r else lineAt cs (r + 1) := rfl

lemma lineLen_cons (c : Char) (cs : List Char) :
    lineLen (c :: cs) = (if c = '\n' then 0 else 1) + lineLen cs := rfl

lemma charToLine_zero (s : List Char) : charToLine s 0 = 0 := by
simp [charToLine]

lemma charToLine_cons_succ (c : Char) (cs : List Char) (o : Nat) :
    charToLine (c :: cs) (o + 1) =
      (if c = '\n' then 1 else 0) + charToLine cs o := by
by_cases hc : c = '\n'
all_goals simp [charToLine, List.take_succ_cons, List.count_cons, hc, Nat.add_comm]

lemma lineCount_cons (c : Char) (cs : List Char) :
    lineCount (c :: cs) = (if c = '\n' then 1 else 0) + lineCount cs := by
by_cases hc : c = '\n'
all_goals simp [lineCount, List.count_cons, hc]
omega

/-- Round-trip consistency of the char/line conversions: decomposing a
valid offset into a row via `charToLine` and a column via `lineStart`
yields a row that exists and a column within that line's char length. -/
lemma charToLine_lineStart_roundtrip (s : List Char) :
    ∀ o : Nat, o ≤ s.length →
      charToLine s o < lineCount s ∧
      lineStart s (charToLine s o) ≤ o ∧
      o - lineStart s (charToLine s o) ≤ lineLen (lineAt s (charToLine s o)) := by
induction s with
| nil =>
    intro o ho
    have ho0 : o = 0 := by simpa using ho
    subst ho0
    decide
| cons c cs ih =>
    intro o ho
    cases o with
    | zero =>
        refine ⟨?_, ?_, ?_⟩
        · rw [charToLine_zero]
          unfold lineCount
          omega
        · rw [charToLine_zero, lineStart_zero]
        · rw [charToLine_zero, lineStart_zero]
          simp
    | succ o' =>
        have ho' : o' ≤ cs.length := by simpa using ho
        obtain ⟨ih1, ih2, ih3⟩ := ih o' ho'
        by_cases hc : c = '\n'
        · subst hc
          have h1 : charToLine ('\n' :: cs) (o' + 1) = charToLine cs o' + 1 := by
            rw [charToLine_cons_succ]
            simp [Nat.add_comm]
          have h2 : lineStart ('\n' :: cs) (charToLine cs o' + 1) =
              1 + lineStart cs (charToLine cs o') := by
            rw [lineStart_cons]
            simp
          have h3 : lineAt ('\n' :: cs) (charToLine cs o' + 1) =
              lineAt cs (charToLine cs o') := by
            rw [lineAt_cons_succ]
            simp
          have h4 : lineCount ('\n' :: cs) = 1 + lineCount cs := by
            rw [lineCount_cons]
            simp
          rw [h1, h2, h3, h4]
          exact ⟨by omega, by omega, by omega⟩
        · have h1 : charToLine (c :: cs) (o' + 1) = charToLine cs o' := by
            rw [charToLine_cons_succ]
            simp [hc]
          have h4 : lineCount (c :: cs) = lineCount cs := by
            rw [lineCount_cons]
            simp [hc]
          rw [h1, h4]
          refine ⟨ih1, ?_, ?_⟩
          · cases hr : charToLine cs o' with
            | zero =>
                rw [lineStart_zero]
                omega
            | succ r'' =>
                rw [lineStart_cons]
                simp only [if_neg hc]
                rw [hr] at ih2
                omega
          · cases hr : charToLine cs o' with
            | zero =>
                rw [lineStart_zero, lineAt_cons_zero]
                simp only [if_neg hc]
                rw [lineLen_cons]
                simp only [if_neg hc]
                rw [hr, lineStart_zero] at ih3
                omega
            | succ r'' =>
                rw [lineStart_cons, lineAt_cons_succ]
                simp only [if_neg hc]
                rw [hr] at ih2 ih3
                omega

/-! Decomposition of successful cursor-position resolutions. -/

lemma lineChecked_some {s : List Char} {r : Nat} {l : List Char}
    (h : lineChecked s r = some l) : r < lineCount s ∧ l = lineAt s r := by
unfold lineChecked at h
by_cases hr : r < lineCount s
· rw [if_pos hr] at h
  exact ⟨hr, (Option.some_injective _ h).symm⟩
· rw [if_neg hr] at h
  cases h

lemma charToLineChecked_some {s : List Char} {o row : Nat}
    (h : charToLineChecked s o = some row) :
    o ≤ s.length ∧ row = charToLine s o := by
unfold charToLineChecked at h
by_cases ho : o ≤ s.length
· rw [if_pos ho] at h
  exact ⟨ho, (Option.some_injective _ h).symm⟩
· rw [if_neg ho] at h
  cases h

/-- The end-of-line clamp of the response listener written as a minimum. -/
lemma clamp_eq_min (col len row : Nat) :
    (if len ≤ col then (len, row) else (col, row)) = (min col len, row) := by
rw [Nat.min_def]
by_cases h : len ≤ col
· rw [if_pos h]
  by_cases h2 : col ≤ len
  · rw [if_pos h2, Nat.le_antisymm h2 h]
  · rw [if_neg h2]
· rw [if_pos (Nat.le_of_not_le h), if_neg h]

/-- In `SingleLineMultipleEditors` mode a successful resolution takes the
response id as the row and the response offset, clamped to the line's
char length, as the column. -/
lemma resolvedCursor_slme {ed : RopeEditor} {position id : Nat} {nc : Nat × Nat}
    (h : resolvedCursor .SingleLineMultipleEditors ed position id = some nc) :
    id < lineCount ed.rope ∧
    nc = (min position (lineLen (lineAt ed.rope id)), id) := by
unfold resolvedCursor at h
simp only at h
cases hl : lineChecked ed.rope id with
| none => rw [hl] at h; cases h
| some l =>
    rw [hl] at h
    obtain ⟨hid, hline⟩ := lineChecked_some hl
    subst hline
    refine ⟨hid, ?_⟩
    have hnc := (Option.some_injective _ h).symm
    rw [hnc, clamp_eq_min]

/-- In `MultipleLinesSingleEditor` mode a successful resolution decomposes
the linear offset: the row is `charToLine` of the offset and the column is
the offset minus the row's start, clamped to the line's char length. -/
lemma resolvedCursor_mlse {ed : RopeEditor} {position id : Nat} {nc : Nat × Nat}
    (h : resolvedCursor .MultipleLinesSingleEditor ed position id = some nc) :
    position ≤ ed.rope.length ∧
    nc = (min (position - lineStart ed.rope (charToLine ed.rope position))
            (lineLen (lineAt ed.rope (charToLine ed.rope position))),
          charToLine ed.rope position) := by
unfold resolvedCursor at h
simp only at h
cases hrow : charToLineChecked ed.rope position with
| none => rw [hrow] at h; cases h
| some row =>
    rw [hrow] at h
    obtain ⟨hpos, hrw⟩ := charToLineChecked_some hrow
    subst hrw
    simp only at h
    refine ⟨hpos, ?_⟩
    have hlt := (charToLine_lineStart_roundtrip ed.rope position hpos).1
    have hlc : lineToCharChecked ed.rope (charToLine ed.rope position) =
        some (lineStart ed.rope (charToLine ed.rope position)) := by
      unfold lineToCharChecked
      rw [if_pos (Nat.le_of_lt hlt)]
    have hl : lineChecked ed.rope (charToLine ed.rope position) =
        some (lineAt ed.rope (charToLine ed.rope position)) := by
      unfold lineChecked
      rw [if_pos hlt]
    rw [hlc] at h
    simp only [Option.map_some'] at h
    rw [hl] at h
    simp only at h
    have hnc := (Option.some_injective _ h).symm
    rw [hnc, clamp_eq_min]

/-- A successful `CursorPosition` handling keeps the rope, sets the cursor
to the resolved pair, and either leaves the editor untouched (when the
resolved pair already was the cursor) or clears the highlights. -/
lemma processCursorPosition_some {mode : EditableMode} {ed ed' : RopeEditor}
    {position id : Nat}
    (h : processCursorPosition mode ed position id = some ed') :
    ∃ nc, resolvedCursor mode ed position id = some nc ∧
      ed'.rope = ed.rope ∧ ed'.cursor.asTuple = nc ∧
      (ed' = ed ∨ ed'.highlights = []) := by
unfold processCursorPosition at h
cases hrc : resolvedCursor mode ed position id with
| none => rw [hrc] at h; cases h
| some nc =>
    rw [hrc] at h
    simp only at h
    refine ⟨nc, rfl, ?_⟩
    by_cases hne : ed.cursor.asTuple ≠ nc
    · rw [if_pos hne] at h
      have hed := (Option.some_injective _ h).symm
      subst hed
      refine ⟨rfl, ?_, Or.inr rfl⟩
      simp [Cursor.asTuple, unhighlight]
    · rw [if_neg hne] at h
      have hed := (Option.some_injective _ h).symm
      subst hed
      exact ⟨rfl, not_not.mp hne, Or.inl rfl⟩

/-- The resolved pair names an existing line and its column is within that
line's char length. -/
lemma resolvedCursor_col_le {mode : EditableMode} {ed : RopeEditor}
    {position id : Nat} {nc : Nat × Nat}
    (h : resolvedCursor mode ed position id = some nc) :
    nc.1 ≤ lineLen (lineAt ed.rope nc.2) ∧ nc.2 < lineCount ed.rope := by
cases mode with
| SingleLineMultipleEditors =>
    obtain ⟨hid, hnc⟩ := resolvedCursor_slme h
    rw [hnc]
    exact ⟨Nat.min_le_right _ _, hid⟩
| MultipleLinesSingleEditor =>
    obtain ⟨hpos, hnc⟩ := resolvedCursor_mlse h
    rw [hnc]
    exact ⟨Nat.min_le_right _ _,
      (charToLine_lineStart_roundtrip ed.rope position hpos).1⟩

/-! Concrete editors and cursor references instantiating the theorems. -/

/-- A one-line buffer `"ab"` with the cursor at the origin. -/
def edAB : RopeEditor := ⟨"ab".data, ⟨0, 0⟩, []⟩

/-- A three-line buffer, cursor at the origin. -/
def edC1 : RopeEditor := ⟨"ab\ncd\nefgh".data, ⟨0, 0⟩, []⟩

/-- The editor `edC1` after resolving row 2, column 3. -/
def edC1R : RopeEditor := ⟨"ab\ncd\nefgh".data, ⟨2, 3⟩, []⟩

/-- A two-line buffer, cursor at the origin. -/
def edML : RopeEditor := ⟨"ab\ncd".data, ⟨0, 0⟩, []⟩

/-- The editor `edML` after a clamped resolution at the end of line 0. -/
def edMLR : RopeEditor := ⟨"ab\ncd".data, ⟨0, 2⟩, []⟩

/-- A one-line buffer with a highlight and the cursor mid-line. -/
def edHL : RopeEditor := ⟨"ab".data, ⟨0, 1⟩, [(0, 0, 2)]⟩

/-- The editor `edAB` after highlighting chars 0..1 for editor id 0. -/
def edABSel : RopeEditor := ⟨"ab".data, ⟨0, 0⟩, [(0, 0, 1)]⟩

/-- A cursor reference with no pending request. -/
def crefEmpty : CursorReference := ⟨none, none, none⟩

/-- A cursor reference with every request slot pending. -/
def crefFull : CursorReference := ⟨some (1, 2), some 7, some ((0, 0), (3, 4))⟩

/-- The cursor reference `crefFull` after the response listener's reset. -/
def crefCleared : CursorReference := ⟨none, some 7, none⟩

/-! The claims. -/

/-- C1: for every CursorPosition layout response, the resolved cursor
follows the mode dispatch: in MultipleLinesSingleEditor mode the row is
char_to_line(offset) and the column is offset - line_to_char(row) (then
clamped to the line length); in SingleLineMultipleEditors mode the row is
the response's editor id and the column is the response's offset directly
(then clamped). In particular CursorPosition(offset 3, editor id 2) in
SingleLineMultipleEditors mode yields cursor row 2, column 3. -/
theorem cursorPosition_mode_dispatch (ed ed' : RopeEditor) (position id : Nat) :
    (processCursorPosition .MultipleLinesSingleEditor ed position id = some ed' →
       ed'.cursor.row = charToLine ed.rope position ∧
       ed'.cursor.col =
         min (position - lineStart ed.rope (charToLine ed.rope position))
           (lineLen (lineAt ed.rope (charToLine ed.rope position)))) ∧
    (processCursorPosition .SingleLineMultipleEditors ed position id = some ed' →
       ed'.cursor.row = id ∧
       ed'.cursor.col = min position (lineLen (lineAt ed.rope id))) ∧
    (processCursorPosition .SingleLineMultipleEditors edC1 3 2 = some edC1R ∧
       edC1R.cursor.row = 2 ∧ edC1R.cursor.col = 3) := by
refine ⟨?_, ?_, by decide⟩
· intro h
  obtain ⟨nc, hrc, _, htup, _⟩ := processCursorPosition_some h
  obtain ⟨_, hnc⟩ := resolvedCursor_mlse hrc
  have hcol := congrArg Prod.fst htup
  have hrow := congrArg Prod.snd htup
  rw [hnc] at hcol hrow
  exact ⟨hrow, hcol⟩
· intro h
  obtain ⟨nc, hrc, _, htup, _⟩ := processCursorPosition_some h
  obtain ⟨_, hnc⟩ := resolvedCursor_slme hrc
  have hcol := congrArg Prod.fst htup
  have hrow := congrArg Prod.snd htup
  rw [hnc] at hcol hrow
  exact ⟨hrow, hcol⟩

/-- Witness for C1: the concrete SingleLineMultipleEditors response
(offset 3, editor id 2) on a three-line buffer. -/
theorem cursorPosition_mode_dispatch_witness :
    (processCursorPosition .SingleLineMultipleEditors edC1 3 2 = some edC1R →
       edC1R.cursor.row = 2 ∧
       edC1R.cursor.col = min 3 (lineLen (lineAt edC1.rope 2))) ∧
    (processCursorPosition .SingleLineMultipleEditors edC1 3 2 = some edC1R ∧
       edC1R.cursor.row = 2 ∧ edC1R.cursor.col = 3) :=
  ⟨(cursorPosition_mode_dispatch edC1 edC1R 3 2).2.1,
   (cursorPosition_mode_dispatch edC1 edC1R 3 2).2.2⟩

/-- C2: after any successfully resolved CursorPosition response the cursor
column is at most the char length of the line the cursor sits on (the
end-of-line clamp); the column is a natural number, hence never
negative, and since the line length excludes the terminator the cursor
never sits mid-terminator or past the end of the line. -/
theorem cursorPosition_column_clamped (mode : EditableMode) (ed ed' : RopeEditor)
    (position id : Nat)
    (h : processCursorPosition mode ed position id = some ed') :
    ed'.rope = ed.rope ∧
    ed'.cursor.col ≤ lineLen (lineAt ed'.rope ed'.cursor.row) := by
obtain ⟨nc, hrc, hrope, htup, _⟩ := processCursorPosition_some h
have hcol : ed'.cursor.col = nc.1 := congrArg Prod.fst htup
have hrow : ed'.cursor.row = nc.2 := congrArg Prod.snd htup
rw [hrope, hcol, hrow]
exact ⟨rfl, (resolvedCursor_col_le hrc).1⟩

/-- Witness for C2: a click past the end of line 0 of `"ab\ncd"` is
clamped to column 2. -/
theorem cursorPosition_column_clamped_witness :
    edMLR.rope = edML.rope ∧
    edMLR.cursor.col ≤ lineLen (lineAt edMLR.rope edMLR.cursor.row) :=
  cursorPosition_column_clamped .MultipleLinesSingleEditor edML edMLR 2 0 (by decide)

/-- C3 counterexample: on the one-line buffer `"ab"`, a CursorPosition
response whose editor id 5 references a nonexistent line is not ignored
as a no-op: the listener's `line(...).unwrap()` panics (modeled by
`none`), so the processing neither leaves the state unchanged nor avoids
the panic. -/
theorem invalid_row_counterexample :
    lineCount edAB.rope ≤ 5 ∧
    processLayoutResponse .SingleLineMultipleEditors crefEmpty edAB
        (.CursorPosition 0 5) = none ∧
    processLayoutResponse .SingleLineMultipleEditors crefEmpty edAB
        (.CursorPosition 0 5) ≠ some (crefEmpty, edAB) := by
decide

/-- C3 (amended): a TextSelection response with any (possibly
nonexistent) editor id is processed without error or panic: it only
replaces that id's highlight entry, leaving rope and cursor untouched,
and resets the position/selection request slots. A CursorPosition
response whose row references a nonexistent line (id at or above the
line count in SingleLineMultipleEditors mode), however, panics at the
line lookup (modeled by `none`) instead of being ignored. -/
theorem selection_tolerant_position_panics (mode : EditableMode)
    (cref : CursorReference) (ed : RopeEditor) (f t id position eid : Nat) :
    (processLayoutResponse mode cref ed (.TextSelection f t id) =
       some ({ cref with cursor_position := none, cursor_selections := none },
             highlight_text ed f t id) ∧
     (highlight_text ed f t id).rope = ed.rope ∧
     (highlight_text ed f t id).cursor = ed.cursor) ∧
    (lineCount ed.rope ≤ eid →
       processLayoutResponse .SingleLineMultipleEditors cref ed
         (.CursorPosition position eid) = none) := by
refine ⟨⟨rfl, rfl, rfl⟩, ?_⟩
intro hle
have hline : lineChecked ed.rope eid = none := by
  unfold lineChecked
  rw [if_neg (by omega)]
have hinner : processCursorPosition .SingleLineMultipleEditors ed position eid = none := by
  unfold processCursorPosition resolvedCursor
  simp only [hline]
unfold processLayoutResponse
simp only [hinner]

/-- Witness for C3 (amended): the out-of-range CursorPosition on `"ab"`
panics, and a TextSelection for the same nonexistent id 5 is processed. -/
theorem selection_tolerant_position_panics_witness :
    processLayoutResponse .SingleLineMultipleEditors crefFull edAB
        (.CursorPosition 0 5) = none ∧
    processLayoutResponse .SingleLineMultipleEditors crefFull edAB
        (.TextSelection 0 1 5) =
      some ({ crefFull with cursor_position := none, cursor_selections := none },
            highlight_text edAB 0 1 5) :=
  ⟨(selection_tolerant_position_panics .SingleLineMultipleEditors crefFull edAB
      0 1 5 0 5).2 (by decide),
   (selection_tolerant_position_panics .SingleLineMultipleEditors crefFull edAB
      0 1 5 0 5).1.1⟩

/-- C4 counterexample: after the response listener processes a message,
the editor-id request slot of the Cursor Reference is not reset: starting
from a reference whose id slot holds 7, it still holds 7 afterwards. -/
theorem request_id_not_reset_counterexample :
    (processLayoutResponse .MultipleLinesSingleEditor crefFull edAB
        (.TextSelection 0 1 0)).map (fun r => r.1.id) = some (some 7) := by
decide

/-- C4 (amended): after the response listener processes any message
without panicking, the cursor_position and cursor_selections request
slots of the Cursor Reference are reset to None; the editor-id slot is
left exactly as it was (it is never reset by this listener). -/
theorem request_fields_reset (mode : EditableMode) (cref cref' : CursorReference)
    (ed ed' : RopeEditor) (msg : CursorLayoutResponse)
    (h : processLayoutResponse mode cref ed msg = some (cref', ed')) :
    cref'.cursor_position = none ∧ cref'.cursor_selections = none ∧
    cref'.id = cref.id := by
cases msg with
| CursorPosition position id =>
    unfold processLayoutResponse at h
    simp only at h
    cases hp : processCursorPosition mode ed position id with
    | none => rw [hp] at h; cases h
    | some e =>
        rw [hp] at h
        simp only at h
        have hpair := Option.some_injective _ h
        have hc : cref' =
            { cref with cursor_position := none, cursor_selections := none } :=
          (congrArg Prod.fst hpair).symm
        rw [hc]
        exact ⟨rfl, rfl, rfl⟩
| TextSelection f t id =>
    unfold processLayoutResponse at h
    simp only at h
    have hpair := Option.some_injective _ h
    have hc : cref' =
        { cref with cursor_position := none, cursor_selections := none } :=
      (congrArg Prod.fst hpair).symm
    rw [hc]
    exact ⟨rfl, rfl, rfl⟩

/-- Witness for C4 (amended): processing a TextSelection against a fully
pending reference clears the position and selection slots and keeps id 7. -/
theorem request_fields_reset_witness :
    crefCleared.cursor_position = none ∧ crefCleared.cursor_selections = none ∧
    crefCleared.id = crefFull.id :=
  request_fields_reset .MultipleLinesSingleEditor crefFull crefCleared edAB edABSel
    (.TextSelection 0 1 0) (by decide)

/-- C9: when the clamped resolution of a CursorPosition response equals
the editor's current cursor, the editor state is left entirely unchanged;
in particular the highlights are not cleared. -/
theorem cursorPosition_equal_noop (mode : EditableMode) (ed : RopeEditor)
    (position id : Nat)
    (h : resolvedCursor mode ed position id = some ed.cursor.asTuple) :
    processCursorPosition mode ed position id = some ed := by
unfold processCursorPosition
rw [h]
simp

/-- Witness for C9: resolving offset 1 on `"ab"` where the cursor already
is at column 1 leaves the editor, highlight included, untouched. -/
theorem cursorPosition_equal_noop_witness :
    processCursorPosition .MultipleLinesSingleEditor edHL 1 0 = some edHL ∧
    edHL.highlights = [(0, 0, 2)] :=
  ⟨cursorPosition_equal_noop .MultipleLinesSingleEditor edHL 1 0 (by decide), rfl⟩

/-- C5: a MouseDown pointer event records its coordinates as the drag
start, writes the editor id and the coordinates into the Cursor Reference
as a position-resolution request, and clears all highlight ranges of the
editor. -/
theorem mousedown_records_drag_and_requests (hasProxy : Bool)
    (dragging : Option Point) (cref : CursorReference) (ed : RopeEditor)
    (coords : Point) (id : Nat) :
    processPointerEvent hasProxy dragging cref ed (.MouseDown coords id) =
      (some coords,
       { cref with id := some id, cursor_position := some coords },
       { ed with highlights := [] },
       hasProxy) := by
cases hasProxy
all_goals rfl

/-- C8: for every buffer and every valid char offset, the offset of the
start of the line containing it is at most the offset, and the difference
is a valid column on that (existing) line: round-trip consistency of the
char/line conversions the response listener uses to decompose a linear
offset. -/
theorem offset_decomposition_roundtrip (s : List Char) (o row : Nat)
    (h : charToLineChecked s o = some row) :
    lineStart s row ≤ o ∧
    o - lineStart s row ≤ lineLen (lineAt s row) ∧
    row < lineCount s := by
obtain ⟨ho, hrow⟩ := charToLineChecked_some h
subst hrow
obtain ⟨h1, h2, h3⟩ := charToLine_lineStart_roundtrip s o ho
exact ⟨h2, h3, h1⟩

/-- Witness for C8: offset 4 of `"ab\ncd"` decomposes into line 1,
column 1. -/
theorem offset_decomposition_roundtrip_witness :
    lineStart "ab\ncd".data 1 ≤ 4 ∧
    4 - lineStart "ab\ncd".data 1 ≤ lineLen (lineAt "ab\ncd".data 1) ∧
    1 < lineCount "ab\ncd".data :=
  offset_decomposition_roundtrip "ab\ncd".data 4 1 (by decide)

/-- C6: after processing a pointer event, a relayout request is sent to
the host (when the event-loop proxy exists) exactly when a drag is still
in progress; in particular every MouseDown sends one and a Click never
does. -/
theorem relayout_iff_dragging (hasProxy : Bool) (dragging : Option Point)
    (cref : CursorReference) (ed : RopeEditor) (ev : EditableEvent)
    (coords : Point) (id : Nat) (h : hasProxy = true) :
    ((processPointerEvent hasProxy dragging cref ed ev).2.2.2 =
       (processPointerEvent hasProxy dragging cref ed ev).1.isSome) ∧
    (processPointerEvent hasProxy dragging cref ed (.MouseDown coords id)).2.2.2 =
      true ∧
    (processPointerEvent hasProxy dragging cref ed .Click).2.2.2 = false := by
subst h
refine ⟨?_, ?_, ?_⟩
· unfold processPointerEvent
  simp [Bool.and_true]
· unfold processPointerEvent
  simp
· rfl

/-- Witness for C6: with a live proxy, a Click emits nothing (drag over)
and a MouseDown emits a relayout request. -/
theorem relayout_iff_dragging_witness :
    ((processPointerEvent true none crefEmpty edAB .Click).2.2.2 =
       (processPointerEvent true none crefEmpty edAB .Click).1.isSome) ∧
    (processPointerEvent true none crefEmpty edAB (.MouseDown (0, 0) 0)).2.2.2 =
      true ∧
    (processPointerEvent true none crefEmpty edAB .Click).2.2.2 = false :=
  relayout_iff_dragging true none crefEmpty edAB .Click (0, 0) 0 rfl

/-- C7: a Click pointer event only clears the drag flag: the cursor
reference and the editor, highlight set included, are exactly what they
were, and no relayout is requested. -/
theorem click_clears_only_drag (hasProxy : Bool) (dragging : Option Point)
    (cref : CursorReference) (ed : RopeEditor) :
    processPointerEvent hasProxy dragging cref ed .Click =
      (none, cref, ed, false) := by
rfl

/-- C10: a MouseOver pointer event while no drag is in progress is a
complete no-op: nothing is written to the Cursor Reference, the editor is
untouched and no relayout is requested. -/
theorem mouseover_without_drag_noop (hasProxy : Bool) (cref : CursorReference)
    (ed : RopeEditor) (coords : Point) (id : Nat) :
    processPointerEvent hasProxy none cref ed (.MouseOver coords id) =
      (none, cref, ed, false) := by
rfl
